import Mathlib

/-!
Verification of the CBOR codec core in lib/cbor.js (node-cbor, non-standard
framing variant).  The JavaScript source is shallowly embedded: pure byte
production and parsing are modelled as Lean functions over lists of natural
numbers (bytes), JavaScript numbers restricted to the integer and exact
dyadic-rational cases exercised by the code, and the continuation-passing
parser as a fuel-indexed total function threading the remaining input.

Conventions:
* a byte sequence is a List Nat (each element intended in [0, 255]);
* a JavaScript string is represented by its UTF-8 byte sequence;
* failures (thrown assertions on the generator side, error callbacks on the
  parser side) are the error case of Except Err;
* host-library calls of the source (new Date, url.parse, new RegExp, the
  IEEE-754 single and double read paths of Buffer) are kept abstract: the
  decoded payload is carried by a dedicated constructor without interpreting
  it, which is sufficient for every property verified below.
-/

/-- Error outcomes of the codec.  Generator side: `intRange` models the
assert.fail "Integer out of range" in `_packInt`; `unmodelledHost` marks inputs
whose encoding goes through host behaviour outside this embedding (general
doubles, Date, RegExp).  Parser side: `truncated` models a wait that can never
be served, `invalidAI` the assertion "Invalid additional info" in the source
`_unpackInt`, `invalidState` the assertion at the end of `_getVal`,
`tagAfterTag` the error "Tag must not follow a tag", `noResult` the arguments
on which the source `_unpackSmallNumber` silently never invokes its callback,
`badByte` an Unallocated constructor argument outside [0, 255],
`unsupportedDate`, `unsupportedUri`, `unsupportedRegex` the corresponding
tag-decoder errors, and `outOfFuel` exhaustion of the recursion budget of the
embedding (never hit at sufficient fuel). -/
inductive Err where
  | intRange
  | unmodelledHost
  | truncated
  | invalidAI (ai : Nat)
  | invalidState
  | tagAfterTag
  | noResult
  | badByte
  | unsupportedDate
  | unsupportedUri
  | unsupportedRegex
  | outOfFuel
deriving DecidableEq

instance {ε α : Type} [DecidableEq ε] [DecidableEq α] : DecidableEq (Except ε α) := fun a b =>
  match a, b with
  | .ok x, .ok y => if h : x = y then .isTrue (by rw [h]) else .isFalse (by simp [h])
  | .error x, .error y => if h : x = y then .isTrue (by rw [h]) else .isFalse (by simp [h])
  | .ok _, .error _ => .isFalse (by simp)
  | .error _, .ok _ => .isFalse (by simp)

/-- BufferStream writeUInt8: append one byte (low eight bits). -/
def writeUInt8 (x : Nat) : List Nat := [x % 256]

/-- BufferStream writeUInt16BE: two bytes, big endian. -/
def writeUInt16BE (x : Nat) : List Nat :=
  [(x >>> 8) &&& 0xff, x &&& 0xff]

/-- BufferStream writeUInt32BE: four bytes, big endian. -/
def writeUInt32BE (x : Nat) : List Nat :=
  [(x >>> 24) &&& 0xff, (x >>> 16) &&& 0xff, (x >>> 8) &&& 0xff, x &&& 0xff]

/-- Floor base-2 logarithm (Nat.log2 restated with an explicit structural
recursion budget, so that it evaluates inside the kernel). -/
def log2F : Nat → Nat → Nat
  | 0, _ => 0
  | f+1, n => if 2 ≤ n then log2F f (n / 2) + 1 else 0

/-- Node Buffer.writeDoubleBE restricted to integer arguments: the IEEE-754
binary64 big-endian image of the double nearest to `x` (ties to even), as
computed by the host when the generator writes a number that failed the int32
test.  Zero maps to eight zero bytes; magnitudes with at most 53 significant
bits are exact; wider integers are rounded to nearest-even; magnitudes at or
beyond 2^1024 give the infinity encoding. -/
def writeDoubleBE (x : Int) : List Nat :=
  let bits : Nat :=
    if x = 0 then 0 else
      let s : Nat := if x < 0 then 2 ^ 63 else 0
      let n : Nat := x.natAbs
      let e : Nat := log2F n n
      if e ≤ 52 then
        s + (1023 + e) * 2 ^ 52 + (n * 2 ^ (52 - e) - 2 ^ 52)
      else
        let k := e - 52
        let q := n / 2 ^ k
        let q' := if 2 * (n % 2 ^ k) > 2 ^ k ∨
                     (2 * (n % 2 ^ k) = 2 ^ k ∧ q % 2 = 1) then q + 1 else q
        let e2 := if q' = 2 ^ 53 then e + 1 else e
        let m2 := if q' = 2 ^ 53 then 0 else q' - 2 ^ 52
        if 1024 ≤ e2 then s + 2047 * 2 ^ 52
        else s + (1023 + e2) * 2 ^ 52 + m2
  [bits / 2 ^ 56 % 256, bits / 2 ^ 48 % 256, bits / 2 ^ 40 % 256,
   bits / 2 ^ 32 % 256, bits / 2 ^ 24 % 256, bits / 2 ^ 16 % 256,
   bits / 2 ^ 8 % 256, bits % 256]

/-- The JavaScript int32 coercion `x | 0` on an integer-valued number:
wrap modulo 2^32 into [-2^31, 2^31). -/
def jsToInt32 (x : Int) : Int :=
  let w := x % 4294967296
  if 2147483648 ≤ w then w - 4294967296 else w

/-- Source `_packInt(i, mt, bufs)`: frame the non-negative integer operand `i`
under major type `mt`. -/
def _packInt (i mt : Nat) : Except Err (List Nat) :=
  let m := mt <<< 5
  if i ≤ 0x1b then
    .ok (writeUInt8 (m ||| i))
  else if i ≤ 0xff then
    .ok (writeUInt8 (m ||| 0x1c) ++ writeUInt8 i)
  else if i ≤ 0xffff then
    .ok (writeUInt8 (m ||| 0x1d) ++ writeUInt16BE i)
  else if i ≤ 0x7fffffff then
    .ok (writeUInt8 (m ||| 0x1e) ++ writeUInt32BE i)
  else
    .error .intRange

/-- Source `_packNumber(obj, bufs)` on an integer-valued number: isNaN is
false, and `obj === (obj|0)` holds exactly when the int32 wrap is the
identity; otherwise the number is written as a 0xdf-prefixed big-endian
double. -/
def _packNumber (x : Int) : Except Err (List Nat) :=
  if jsToInt32 x = x then
    if 0 ≤ x then _packInt x.toNat 0
    else _packInt (-x - 1).toNat 1
  else
    .ok (0xdf :: writeDoubleBE x)

/-- The in-memory JavaScript values handled by the codec.  `num` is an
integer-valued number; `flt` a number produced by the half-precision decoder
(sign and exact magnitude, see JsFloat below); `str` a string as UTF-8 bytes;
`buf` a Node Buffer; `obj` a plain object as an ordered field list keyed by
property-name bytes; `unallocated` the Unallocated wrapper; `float32` and
`float64` carry the undecoded payload of the host readFloatBE and
readDoubleBE calls; `date`, `uri`, `regex` carry the inner item handed to the
corresponding host constructor by the default tag decoders. -/
inductive JsFloat where
  | fin (sign : Int) (mag : ℚ)
  | inf (sign : Int)
  | nan
deriving DecidableEq

inductive JsVal where
  | num (i : Int)
  | flt (x : JsFloat)
  | str (bs : List Nat)
  | bool (b : Bool)
  | null
  | undef
  | arr (vs : List JsVal)
  | obj (fields : List (List Nat × JsVal))
  | buf (bs : List Nat)
  | unallocated (n : Nat)
  | float32 (bs : List Nat)
  | float64 (bs : List Nat)
  | date (inner : JsVal)
  | uri (inner : JsVal)
  | regex (inner : JsVal)

/-- Source `_packBuffer`: length under major type 2, then the raw bytes. -/
def _packBuffer (bs : List Nat) : Except Err (List Nat) := do
  let pre ← _packInt bs.length 2
  .ok (pre ++ bs)

mutual
/-- Dispatch of the source `unsafePack(obj, bufs)`, with `_packObject` taken
through the default semanticTypes registry, which is resolved statically per
variant here: the arr branch is `_packArray` (length under major type 4,
then each element), the buf branch is `_packBuffer`, the unallocated branch
is `Unallocated.pack`, and the obj branch is the generic key-walk of
`_packObject` (pair count under major type 5, then for each own key the key
as a string and the value).  Number inputs outside the integer case and the
host types Date and RegExp would be encoded through host double formatting
or host object accessors and are out of the modelled universe. -/
def pack : JsVal → Except Err (List Nat)
  | .num i => _packNumber i
  | .str bs => do
    let pre ← _packInt bs.length 3
    .ok (pre ++ bs)
  | .bool b => .ok [if b then 0xd9 else 0xd8]
  | .undef => .ok [0xdb]
  | .null => .ok [0xda]
  | .arr vs => do
    let pre ← _packInt vs.length 4
    let body ← packElems vs
    .ok (pre ++ body)
  | .buf bs => _packBuffer bs
  | .unallocated n => _packInt n 6
  | .obj fields => do
    let pre ← _packInt fields.length 5
    let body ← packFields fields
    .ok (pre ++ body)
  | .flt _ => .error .unmodelledHost
  | .float32 _ => .error .unmodelledHost
  | .float64 _ => .error .unmodelledHost
  | .date _ => .error .unmodelledHost
  | .uri _ => .error .unmodelledHost
  | .regex _ => .error .unmodelledHost

/-- The element loop of the source `_packArray`. -/
def packElems : List JsVal → Except Err (List Nat)
  | [] => .ok []
  | v :: rest => do
    let h ← pack v
    let t ← packElems rest
    .ok (h ++ t)

/-- The key/value loop of the generic map branch of `_packObject`; the keys
of a plain object are strings. -/
def packFields : List (List Nat × JsVal) → Except Err (List Nat)
  | [] => .ok []
  | (k, v) :: rest => do
    let kpre ← _packInt k.length 3
    let vb ← pack v
    let t ← packFields rest
    .ok (kpre ++ k ++ vb ++ t)
end

-- ---------------- unpack ----------------- --

/-- BufferStream wait(n): with a one-shot buffer, hand over the next `n`
bytes when available; a request that can never be served is the truncation
error surfaced by the stream adapter. -/
def wait (n : Nat) (bs : List Nat) : Except Err (List Nat × List Nat) :=
  if n ≤ bs.length then .ok (bs.take n, bs.drop n) else .error .truncated

/-- Node Buffer.readUInt8(0). -/
def readUInt8 (buf : List Nat) : Nat := buf.getD 0 0

/-- Node Buffer.readUInt16BE(0). -/
def readUInt16BE (buf : List Nat) : Nat := buf.getD 0 0 * 256 + buf.getD 1 0

/-- Node Buffer.readUInt32BE(0). -/
def readUInt32BE (buf : List Nat) : Nat :=
  buf.getD 0 0 * 2 ^ 24 + buf.getD 1 0 * 2 ^ 16 + buf.getD 2 0 * 2 ^ 8 + buf.getD 3 0

/-- Source `_unpackInt(ai, buf)`: interpret the operand bytes selected by the
additional information.  In the 31 case the source computes
`f * Math.pow(2,32) + g` in double arithmetic, which rounds above 2^53; the
embedding sums exactly, a difference not exercised by the verified claims.
The fall-through is the assertion "Invalid additional info". -/
def _unpackInt (ai : Nat) (buf : List Nat) : Except Err Nat :=
  match ai with
  | 28 => .ok (readUInt8 buf)
  | 29 => .ok (readUInt16BE buf)
  | 30 => .ok (readUInt32BE buf)
  | 31 => .ok (readUInt32BE buf * 4294967296 + readUInt32BE (buf.drop 4))
  | _ => .error (.invalidAI ai)

/-- Math.pow(2, k) for an integer exponent, exact. -/
def jsPow2 (k : Int) : ℚ :=
  if 0 ≤ k then ((2 ^ k.toNat : Nat) : ℚ) else 1 / ((2 ^ (-k).toNat : Nat) : ℚ)

/-- Source `_unpackHalf(buf)`: IEEE-754 half-precision decode.  The constant
is the source literal 5.9604644775390625e-8 (exactly 2^-24) written as a
fraction. -/
def _unpackHalf (buf : List Nat) : JsFloat :=
  let b0 := buf.getD 0 0
  let b1 := buf.getD 1 0
  let sign : Int := if b0 &&& 0x80 ≠ 0 then -1 else 1
  let exp := (b0 &&& 0x7C) >>> 2
  let mant := ((b0 &&& 0x03) <<< 8) ||| b1
  if exp = 0 then
    .fin sign ((59604644775390625 : ℚ) / 10 ^ 24 * (mant : ℚ))
  else if exp = 0x1f then
    (if mant ≠ 0 then .nan else .inf sign)
  else
    .fin sign (jsPow2 ((exp : Int) - 25) * ((1024 + mant : Nat) : ℚ))

/-- Source `_unpackSmallNumber(ai, buf, cb)`.  The 28 branch is
`new Unallocated(buf[0])`, whose constructor would throw outside [0, 255]
(a real byte never is); for ai outside [0, 31] the source never invokes its
callback, represented by `noResult` (unreachable from `_unpack`). -/
def _unpackSmallNumber (ai : Nat) (buf : List Nat) : Except Err JsVal :=
  if ai ≤ 23 then .ok (.unallocated ai)
  else match ai with
  | 24 => .ok (.bool false)
  | 25 => .ok (.bool true)
  | 26 => .ok .null
  | 27 => .ok .undef
  | 28 => if buf.getD 0 0 ≤ 255 then .ok (.unallocated (buf.getD 0 0)) else .error .badByte
  | 29 => .ok (.flt (_unpackHalf buf))
  | 30 => .ok (.float32 (buf.take 4))
  | 31 => .ok (.float64 (buf.take 8))
  | _ => .error .noResult

/-- The typeof operator on modelled values (typeof null is object). -/
inductive JsType where
  | number
  | string
  | boolean
  | undefinedType
  | object
deriving DecidableEq

def jsTypeOf : JsVal → JsType
  | .num _ => .number
  | .flt _ => .number
  | .float32 _ => .number
  | .float64 _ => .number
  | .str _ => .string
  | .bool _ => .boolean
  | .undef => .undefinedType
  | .null => .object
  | .arr _ => .object
  | .obj _ => .object
  | .buf _ => .object
  | .unallocated _ => .object
  | .date _ => .object
  | .uri _ => .object
  | .regex _ => .object

/-- Source `_unpackDate(tag, obj, cb)`: a string builds an RFC 3339 Date, a
number a seconds-since-epoch Date (host constructors abstracted by the
`date` wrapper); anything else errors. -/
def _unpackDate (obj : JsVal) : Except Err JsVal :=
  match jsTypeOf obj with
  | .string => .ok (.date obj)
  | .number => .ok (.date obj)
  | _ => .error .unsupportedDate

/-- Source `_unpackUri(tag, obj, cb)`: requires a string (url.parse
abstracted by the `uri` wrapper). -/
def _unpackUri (obj : JsVal) : Except Err JsVal :=
  if jsTypeOf obj ≠ .string then .error .unsupportedUri else .ok (.uri obj)

/-- Source `_unpackRegex(tag, obj, cb)`: requires a string (new RegExp
abstracted by the `regex` wrapper). -/
def _unpackRegex (obj : JsVal) : Except Err JsVal :=
  if jsTypeOf obj ≠ .string then .error .unsupportedRegex else .ok (.regex obj)

/-- The default semanticTags registry of a Parser built without options. -/
def defaultSemanticTags : List (Nat × (JsVal → Except Err JsVal)) :=
  [(11, _unpackDate), (15, _unpackUri), (23, _unpackRegex)]

/-- JavaScript number-to-string on the abstracted float values.  NaN,
signed infinities and integral finite values format exactly as the host
does (a negative zero prints as 0); the non-integral finite case would use
host shortest-roundtrip double formatting and is abstracted by a marker
byte followed by the exact fraction. -/
def hostFloatKey : JsFloat → List Nat
  | .nan => [78, 97, 78]
  | .inf s =>
    if s < 0 then 45 :: [73, 110, 102, 105, 110, 105, 116, 121]
    else [73, 110, 102, 105, 110, 105, 116, 121]
  | .fin s m =>
    if m.den = 1 then (toString (s * m.num)).toList.map (fun c => c.toNat)
    else 0 :: ((toString (s * m.num)).toList.map (fun c => c.toNat))
      ++ 47 :: ((toString m.den).toList.map (fun c => c.toNat))

mutual
/-- JavaScript string coercion applied to a decoded value when it is used as
a property key by `res[key] = val` in the source `_unpackMap`.  Numbers print
in decimal, strings and Buffers pass through as their bytes, booleans, null
and undefined print as their keywords, arrays join their elements with
commas (null and undefined joining as empty), plain objects print as
[object Object], and Unallocated uses its own toString
(Unallocated-value, base 10).  The remaining host-formatted cases (undecoded
float payloads, Date, url record, RegExp) are abstracted by marker bytes. -/
def jsKeyString : JsVal → List Nat
  | .num i => (toString i).toList.map (fun c => c.toNat)
  | .flt x => hostFloatKey x
  | .str bs => bs
  | .bool b =>
    if b then [116, 114, 117, 101] else [102, 97, 108, 115, 101]
  | .null => [110, 117, 108, 108]
  | .undef => [117, 110, 100, 101, 102, 105, 110, 101, 100]
  | .arr vs => jsKeyJoin vs
  | .obj _ => [91, 111, 98, 106, 101, 99, 116, 32, 79, 98, 106, 101, 99, 116, 93]
  | .buf bs => bs
  | .unallocated n =>
    [85, 110, 97, 108, 108, 111, 99, 97, 116, 101, 100, 45]
      ++ (toString n).toList.map (fun c => c.toNat)
  | .float32 bs => 254 :: bs
  | .float64 bs => 254 :: bs
  | .date inner => 253 :: jsKeyString inner
  | .uri inner => 252 :: jsKeyString inner
  | .regex inner => 251 :: jsKeyString inner

/-- Array.prototype.join with the default comma separator, null and
undefined elements joining as the empty string. -/
def jsKeyJoin : List JsVal → List Nat
  | [] => []
  | v :: rest =>
    (match v with
      | .null => []
      | .undef => []
      | w => jsKeyString w)
      ++ (match rest with | [] => [] | _ => 44 :: jsKeyJoin rest)
end

/-- JavaScript object property assignment `res[key] = val` on an ordered
field list: overwrite in place when the key exists, append otherwise. -/
def objSet {K V : Type} [DecidableEq K] : List (K × V) → K → V → List (K × V)
  | [], k, v => [(k, v)]
  | (k0, v0) :: rest, k, v =>
    if k0 = k then (k0, v) :: rest else (k0, v0) :: objSet rest k v

/-- Source `addSemanticType(type, fun)` on the flat type/packer list: scan
for the type, replace in place returning the old packer, else append
returning null. -/
def addSemanticType {K V : Type} [DecidableEq K] : List (K × V) → K → V → Option V × List (K × V)
  | [], t, f => (none, [(t, f)])
  | (t0, f0) :: rest, t, f =>
    if t0 = t then (some f0, (t0, f) :: rest)
    else
      let r := addSemanticType rest t f
      (r.1, (t0, f0) :: r.2)

/-- Source `addSemanticTag(tag, fun)`: read the old entry, store the new
one, return the old. -/
def addSemanticTag {V : Type} (reg : List (Nat × V)) (tag : Nat) (f : V) :
    Option V × List (Nat × V) :=
  (List.lookup tag reg, objSet reg tag f)

/-- Parser results: the decoded value, the unknown-tag third callback slot,
and the remaining input. -/
abbrev DRes := Except Err (JsVal × Option Nat × List Nat)

/-- Source `_unpackArray(bs, left, res, cb)`; the inner callback passes only
the decoded object, so any inner unknown-tag slot is dropped, and the
recursive `_unpack` call carries no tagged flag. -/
def _unpackArray (u : List Nat → Bool → DRes) : Nat → List Nat → List JsVal → DRes
  | 0, bs, res => .ok (.arr res, none, bs)
  | left+1, bs, res => do
    let (obj, _, bs') ← u bs false
    _unpackArray u left bs' (res ++ [obj])

/-- Source `_unpackMap(bs, left, res, cb)`: decode a key then a value, store
through property assignment (the key being string-coerced), recurse. -/
def _unpackMap (u : List Nat → Bool → DRes) : Nat → List Nat → List (List Nat × JsVal) → DRes
  | 0, bs, res => .ok (.obj res, none, bs)
  | left+1, bs, res => do
    let (key, _, bs1) ← u bs false
    let (val, _, bs2) ← u bs1 false
    _unpackMap u left bs2 (objSet res (jsKeyString key) val)

/-- Source `_unpackSemanticTag(tag, bs, cb)`: decode the next item with the
tagged flag set, then post-process through the tag registry; an unknown tag
passes the inner item through with the tag in the third callback slot. -/
def _unpackSemanticTag (u : List Nat → Bool → DRes) (tag : Nat) (bs : List Nat) : DRes := do
  let (obj, _, bs') ← u bs true
  match List.lookup tag defaultSemanticTags with
  | some f => do
    let v ← f obj
    .ok (v, none, bs')
  | none => .ok (obj, some tag, bs')

/-- Source `_getVal(mt, num, bs, cb, tagged)`: dispatch on the major type;
`u` is the recursive `_unpack` continuation.  The fall-through models the
assertion "Invalid state" (unreachable for real initial bytes, whose major
type is below 8). -/
def _getVal (u : List Nat → Bool → DRes) (mt num : Nat) (bs : List Nat) (tagged : Bool) : DRes :=
  match mt with
  | 0 => .ok (.num (num : Int), none, bs)
  | 1 => .ok (.num (-1 - (num : Int)), none, bs)
  | 2 => do
    let (buf, bs') ← wait num bs
    .ok (.buf buf, none, bs')
  | 3 => do
    let (buf, bs') ← wait num bs
    .ok (.str buf, none, bs')
  | 4 => _unpackArray u num bs []
  | 5 => _unpackMap u num bs []
  | 6 => do
    let v ← _unpackSmallNumber num []
    .ok (v, none, bs)
  | 7 =>
    if tagged then .error .tagAfterTag
    else _unpackSemanticTag u num bs
  | _ => .error .invalidState

/-- Source `_unpack(bs, cb, tagged)`: read the initial byte, split it into
major type and additional information, fetch the operand bytes when ai is at
least 28, and dispatch.  The fuel argument bounds the recursion depth of the
embedding and is threaded to nested item decodes. -/
def _unpack : Nat → List Nat → Bool → DRes
  | 0, _, _ => .error .outOfFuel
  | fuel+1, bs, tagged => do
    let (buf, bs1) ← wait 1 bs
    let octet := buf.getD 0 0
    let mt := octet >>> 5
    let ai := octet &&& 0x1f
    if 28 ≤ ai then do
      let (buf2, bs2) ← wait (1 <<< (ai - 28)) bs1
      if mt = 6 then do
        let v ← _unpackSmallNumber ai buf2
        .ok (v, none, bs2)
      else do
        let num ← _unpackInt ai buf2
        _getVal (fun b tg => _unpack fuel b tg) mt num bs2 tagged
    else
      _getVal (fun b tg => _unpack fuel b tg) mt ai bs1 tagged
termination_by structural fuel => fuel

/-- JavaScript truncation toward zero of a number. -/
def jsTrunc (q : ℚ) : Int := if 0 ≤ q then ⌊q⌋ else ⌈q⌉

/-- The int32 coercion `num | 0` on a general (finite) number: truncate,
then wrap modulo 2^32 into [-2^31, 2^31). -/
def jsToInt32Q (q : ℚ) : Int :=
  let w := jsTrunc q % 4294967296
  if 2147483648 ≤ w then w - 4294967296 else w

/-- Source constructor `Unallocated(num)` on a number argument: throws (the
error "num must be a small positive integer") when the number is negative,
above 255, or not equal to its int32 coercion; otherwise stores the value. -/
def UnallocatedNew (q : ℚ) : Except Err ℚ :=
  if q < 0 ∨ 255 < q ∨ ((jsToInt32Q q : ℚ) ≠ q) then .error .badByte else .ok q

/-- Classifier for the framing-error outcome: true exactly on the
invalid-additional-info failure of `_unpackInt`. -/
def hasAI {α : Type} : Except Err α → Bool
  | .error (.invalidAI _) => true
  | _ => false

-- ---------------- shared byte and bit lemmas ----------------- --

lemma andMask255 (x : Nat) : x &&& 255 = x % 256 := by
  have h := Nat.and_pow_two_sub_one_eq_mod x 8
  norm_num at h
  exact h

lemma andMask31 (x : Nat) : x &&& 31 = x % 32 := by
  have h := Nat.and_pow_two_sub_one_eq_mod x 5
  norm_num at h
  exact h

lemma shrDiv (x k : Nat) : x >>> k = x / 2 ^ k := Nat.shiftRight_eq_div_pow x k

/-- The initial byte built by the generator: a shifted major type orred with
a small value below 32 is their sum. -/
lemma headerVal (mt v : Nat) (h : v < 32) : mt <<< 5 ||| v = 32 * mt + v := by
  have h2 := Nat.mul_add_lt_is_or (i := 5) (b := v) (by simpa using h) mt
  rw [Nat.shiftLeft_eq]
  norm_num at h2 ⊢
  rw [Nat.mul_comm]
  exact h2.symm

/-- Major type extraction of the parser inverts the header construction. -/
lemma headerMt (mt v : Nat) (h : v < 32) : (32 * mt + v) >>> 5 = mt := by
  rw [shrDiv]
  omega

lemma headerAi (mt v : Nat) (h : v < 32) : (32 * mt + v) &&& 31 = v := by
  rw [andMask31]
  omega

-- ---------------- C1 ----------------- --

/-- C1: for every major type mt in 0..5 and every non-negative integer
operand i, `_packInt` emits a single byte (mt<<5)|i when i is at most 0x1b;
the byte (mt<<5)|0x1c followed by one payload byte when 0x1b < i and i is at
most 0xff; the byte (mt<<5)|0x1d followed by two big-endian payload bytes
when 0xff < i and i is at most 0xffff; the byte (mt<<5)|0x1e followed by
four big-endian payload bytes when 0xffff < i and i is at most 0x7fffffff;
and fails with the integer-out-of-range assertion for any larger i. -/
theorem C1_packInt_framing (mt i : Nat) (hmt : mt ≤ 5) :
    (i ≤ 0x1b → _packInt i mt = .ok [mt <<< 5 ||| i]) ∧
    (0x1b < i → i ≤ 0xff → _packInt i mt = .ok [mt <<< 5 ||| 0x1c, i]) ∧
    (0xff < i → i ≤ 0xffff → _packInt i mt = .ok [mt <<< 5 ||| 0x1d, i / 256, i % 256]) ∧
    (0xffff < i → i ≤ 0x7fffffff →
      _packInt i mt =
        .ok [mt <<< 5 ||| 0x1e, i / 2 ^ 24, i / 2 ^ 16 % 256, i / 2 ^ 8 % 256, i % 256]) ∧
    (0x7fffffff < i → _packInt i mt = .error .intRange) := by
  have hdr : ∀ v, v < 32 → (mt <<< 5 ||| v) % 256 = mt <<< 5 ||| v := by
    intro v hv
    rw [headerVal mt v hv]
    omega
  refine ⟨?_, ?_, ?_, ?_, ?_⟩
  · intro h1
    simp only [_packInt, writeUInt8, if_pos h1]
    rw [hdr i (by omega)]
  · intro h1 h2
    simp only [_packInt, writeUInt8, if_neg (by omega : ¬ i ≤ 0x1b), if_pos h2]
    rw [hdr 0x1c (by omega), (by omega : i % 256 = i)]
    rfl
  · intro h1 h2
    simp only [_packInt, writeUInt8, writeUInt16BE,
      if_neg (by omega : ¬ i ≤ 0x1b), if_neg (by omega : ¬ i ≤ 0xff), if_pos h2]
    rw [hdr 0x1d (by omega), andMask255, andMask255, shrDiv,
      (by omega : i / 2 ^ 8 % 256 = i / 256)]
    rfl
  · intro h1 h2
    simp only [_packInt, writeUInt8, writeUInt32BE,
      if_neg (by omega : ¬ i ≤ 0x1b), if_neg (by omega : ¬ i ≤ 0xff),
      if_neg (by omega : ¬ i ≤ 0xffff), if_pos h2]
    rw [hdr 0x1e (by omega), andMask255, andMask255, andMask255, andMask255,
      shrDiv, shrDiv, shrDiv,
      (by omega : i / 2 ^ 24 % 256 = i / 2 ^ 24)]
    rfl
  · intro h1
    simp only [_packInt,
      if_neg (by omega : ¬ i ≤ 0x1b), if_neg (by omega : ¬ i ≤ 0xff),
      if_neg (by omega : ¬ i ≤ 0xffff), if_neg (by omega : ¬ i ≤ 0x7fffffff)]

/-- C1 witness: the one-payload-byte branch at 255 under major type 0, and
the failure branch just above the 31-bit bound. -/
theorem C1_packInt_framing_witness :
    _packInt 255 0 = .ok [28, 255] ∧ _packInt 2147483648 3 = .error .intRange := by
  constructor
  · have h := (C1_packInt_framing 0 255 (by norm_num)).2.1 (by norm_num) (by norm_num)
    rw [(by decide : (0 <<< 5 ||| 0x1c : Nat) = 28)] at h
    exact h
  · exact (C1_packInt_framing 3 2147483648 (by norm_num)).2.2.2.2 (by norm_num)

-- ---------------- C2 ----------------- --

/-- One step of the parser on a nonempty buffer: the initial byte is split
and dispatched. -/
lemma unpack_succ_cons (f : Nat) (x : Nat) (rest : List Nat) (t : Bool) :
    _unpack (f+1) (x :: rest) t =
      (if 28 ≤ x &&& 31 then do
        let (buf2, bs2) ← wait (1 <<< ((x &&& 31) - 28)) rest
        if x >>> 5 = 6 then do
          let v ← _unpackSmallNumber (x &&& 31) buf2
          Except.ok (v, none, bs2)
        else do
          let num ← _unpackInt (x &&& 31) buf2
          _getVal (fun b tg => _unpack f b tg) (x >>> 5) num bs2 t
      else _getVal (fun b tg => _unpack f b tg) (x >>> 5) (x &&& 31) rest t) := by
  show (do
      let (buf, bs1) ← wait 1 (x :: rest)
      let octet := buf.getD 0 0
      let mt := octet >>> 5
      let ai := octet &&& 0x1f
      if 28 ≤ ai then do
        let (buf2, bs2) ← wait (1 <<< (ai - 28)) bs1
        if mt = 6 then do
          let v ← _unpackSmallNumber ai buf2
          Except.ok (v, none, bs2)
        else do
          let num ← _unpackInt ai buf2
          _getVal (fun b tg => _unpack f b tg) mt num bs2 t
      else _getVal (fun b tg => _unpack f b tg) mt ai bs1 t) = _
  have hw : wait 1 (x :: rest) = .ok ([x], rest) := by
    simp [wait]
  rw [hw]
  rfl

lemma okBind {α β : Type} (a : α) (f : α → Except Err β) :
    (do let x ← Except.ok a; f x) = f a := rfl

/-- Decoding the framed bytes of an operand below 2^31 recovers the major
type and the operand and hands them to the dispatcher. -/
lemma unpack_packInt_frame (f mt n : Nat) (rest : List Nat) (t : Bool) (bs : List Nat)
    (hmt : mt ≤ 5) (hn : n ≤ 2147483647) (hp : _packInt n mt = .ok bs) :
    _unpack (f+1) (bs ++ rest) t = _getVal (fun b tg => _unpack f b tg) mt n rest t := by
  by_cases c1 : n ≤ 27
  · have hb : [(mt <<< 5 ||| n) % 256] = bs := by
      have h := hp
      simp only [_packInt, writeUInt8, if_pos c1, Except.ok.injEq] at h
      exact h
    rw [← hb]
    have hv : (mt <<< 5 ||| n) % 256 = 32 * mt + n := by
      rw [headerVal mt n (by omega)]
      omega
    rw [hv]
    simp only [List.cons_append, List.nil_append, unpack_succ_cons,
      headerAi mt n (by omega), headerMt mt n (by omega)]
    rw [if_neg (by omega)]
  · by_cases c2 : n ≤ 255
    · have hb : [(mt <<< 5 ||| 28) % 256, n % 256] = bs := by
        have h := hp
        simp only [_packInt, writeUInt8, if_neg (by omega : ¬ n ≤ 0x1b),
          if_pos c2, List.cons_append, List.nil_append, Except.ok.injEq] at h
        exact h
      rw [← hb]
      have hv : (mt <<< 5 ||| 28) % 256 = 32 * mt + 28 := by
        rw [headerVal mt 28 (by omega)]
        omega
      rw [hv, (by omega : n % 256 = n)]
      simp only [List.cons_append, List.nil_append, unpack_succ_cons,
        headerAi mt 28 (by omega), headerMt mt 28 (by omega)]
      rw [if_pos (by omega : 28 ≤ 28)]
      have hw : wait (1 <<< (28 - 28)) (n :: rest) = .ok ([n], rest) := by
        simp [wait]
      rw [hw, okBind]
      rw [if_neg (by omega : ¬ mt = 6)]
      rfl
    · by_cases c3 : n ≤ 65535
      · have hb : [(mt <<< 5 ||| 29) % 256, (n >>> 8) &&& 255, n &&& 255] = bs := by
          have h := hp
          simp only [_packInt, writeUInt8, writeUInt16BE, if_neg (by omega : ¬ n ≤ 0x1b),
            if_neg (by omega : ¬ n ≤ 0xff), if_pos c3,
            List.cons_append, List.nil_append, Except.ok.injEq] at h
          exact h
        rw [← hb]
        have hv : (mt <<< 5 ||| 29) % 256 = 32 * mt + 29 := by
          rw [headerVal mt 29 (by omega)]
          omega
        rw [hv]
        simp only [List.cons_append, List.nil_append, unpack_succ_cons,
          headerAi mt 29 (by omega), headerMt mt 29 (by omega)]
        rw [if_pos (by omega : 28 ≤ 29)]
        have hw : wait (1 <<< (29 - 28)) (((n >>> 8) &&& 255) :: ((n &&& 255)) :: rest) =
            .ok ([(n >>> 8) &&& 255, n &&& 255], rest) := by
          simp [wait]
        rw [hw, okBind]
        rw [if_neg (by omega : ¬ mt = 6)]
        have hi : _unpackInt 29 [(n >>> 8) &&& 255, n &&& 255] = .ok n := by
          simp only [_unpackInt, readUInt16BE, List.getD]
          rw [andMask255, andMask255, shrDiv]
          norm_num
          omega
        rw [hi]
        rfl
      · have hb : [(mt <<< 5 ||| 30) % 256,
            (n >>> 24) &&& 255, (n >>> 16) &&& 255, (n >>> 8) &&& 255, n &&& 255] = bs := by
          have h := hp
          simp only [_packInt, writeUInt8, writeUInt32BE, if_neg (by omega : ¬ n ≤ 0x1b),
            if_neg (by omega : ¬ n ≤ 0xff), if_neg (by omega : ¬ n ≤ 0xffff),
            if_pos (by omega : n ≤ 0x7fffffff),
            List.cons_append, List.nil_append, Except.ok.injEq] at h
          exact h
        rw [← hb]
        have hv : (mt <<< 5 ||| 30) % 256 = 32 * mt + 30 := by
          rw [headerVal mt 30 (by omega)]
          omega
        rw [hv]
        simp only [List.cons_append, List.nil_append, unpack_succ_cons,
          headerAi mt 30 (by omega), headerMt mt 30 (by omega)]
        rw [if_pos (by omega : 28 ≤ 30)]
        have hw : wait (1 <<< (30 - 28))
            (((n >>> 24) &&& 255) :: ((n >>> 16) &&& 255) :: ((n >>> 8) &&& 255) :: ((n &&& 255)) :: rest) =
            .ok ([(n >>> 24) &&& 255, (n >>> 16) &&& 255, (n >>> 8) &&& 255, n &&& 255], rest) := by
          simp [wait]
        rw [hw, okBind]
        rw [if_neg (by omega : ¬ mt = 6)]
        have hi : _unpackInt 30
            [(n >>> 24) &&& 255, (n >>> 16) &&& 255, (n >>> 8) &&& 255, n &&& 255] = .ok n := by
          simp only [_unpackInt, readUInt32BE, List.getD]
          rw [andMask255, andMask255, andMask255, andMask255, shrDiv, shrDiv, shrDiv]
          norm_num
          omega
        rw [hi]
        rfl

lemma packInt_ok (n mt : Nat) (h : n ≤ 2147483647) : ∃ bs, _packInt n mt = .ok bs := by
  unfold _packInt
  split_ifs <;> first | exact ⟨_, rfl⟩ | omega

lemma jsToInt32_fixed (i : Int) (h1 : -2147483648 ≤ i) (h2 : i ≤ 2147483647) :
    jsToInt32 i = i := by
  simp only [jsToInt32]
  split_ifs <;> omega

/-- C2: every integer in the signed 32-bit range round-trips: pack frames a
non-negative i as `_packInt(i, 0)` and a negative one as `_packInt(-i-1, 1)`,
and the parser returns num for major type 0 and -1-num for major type 1, so
decoding the packed bytes yields the integer again (with nothing left over
and no unknown-tag slot). -/
theorem C2_int_roundtrip (f : Nat) (i : Int)
    (h1 : -2147483648 ≤ i) (h2 : i ≤ 2147483647) :
    (pack (.num i)).bind (fun bs => _unpack (f+1) bs false) = .ok (.num i, none, []) := by
  have hwrap : jsToInt32 i = i := jsToInt32_fixed i h1 h2
  rcases le_or_lt 0 i with hpos | hneg
  · have hpack : pack (.num i) = _packInt i.toNat 0 := by
      show _packNumber i = _
      rw [_packNumber, if_pos hwrap, if_pos hpos]
    obtain ⟨bs, hbs⟩ := packInt_ok i.toNat 0 (by omega)
    rw [hpack, hbs]
    have hframe := unpack_packInt_frame f 0 i.toNat [] false bs
      (by norm_num) (by omega) hbs
    rw [List.append_nil] at hframe
    show _unpack (f+1) bs false = _
    rw [hframe]
    simp only [_getVal]
    rw [Int.toNat_of_nonneg hpos]
  · have hpack : pack (.num i) = _packInt (-i - 1).toNat 1 := by
      show _packNumber i = _
      rw [_packNumber, if_pos hwrap, if_neg (by omega)]
    obtain ⟨bs, hbs⟩ := packInt_ok (-i - 1).toNat 1 (by omega)
    rw [hpack, hbs]
    have hframe := unpack_packInt_frame f 1 (-i - 1).toNat [] false bs
      (by norm_num) (by omega) hbs
    rw [List.append_nil] at hframe
    show _unpack (f+1) bs false = _
    rw [hframe]
    simp only [_getVal]
    rw [Int.toNat_of_nonneg (by omega : (0 : Int) ≤ -i - 1),
      (by ring : (-1 - (-i - 1) : Int) = i)]

/-- C2 witness: 255 packs to 1c ff and decodes back to 255 (the concrete
example of the specification). -/
theorem C2_int_roundtrip_witness :
    (pack (.num 255)).bind (fun bs => _unpack 1 bs false) = .ok (.num 255, none, []) :=
  C2_int_roundtrip 0 255 (by norm_num) (by norm_num)

-- ---------------- C3 ----------------- --

/-- C3 counterexample: packing the number 2^31 does not fail; since 2^31 is
not equal to its int32 coercion, `_packNumber` never reaches `_packInt` and
instead succeeds through the float branch. -/
theorem C3_pow31_does_not_fail : (_packNumber 2147483648).isOk = true := rfl

/-- C3 amended: encoding the number 2^31 succeeds and emits 0xdf followed by
the eight big-endian bytes of the IEEE-754 double 2^31 (0x41E0000000000000);
the integer-out-of-range failure is not reached because the int32 equality
test of `_packNumber` routes 2^31 to the float branch. -/
theorem C3_pow31_packs_as_double :
    pack (.num 2147483648) = .ok [0xdf, 0x41, 0xe0, 0, 0, 0, 0, 0, 0] := rfl

-- ---------------- C6 ----------------- --

/-- C6: the generator emits the single byte 0xd9 for true, 0xd8 for false,
0xda for null and 0xdb for undefined, and the parser inverts this: an
initial byte of major type 6 with ai 24 yields false, ai 25 true, ai 26
null and ai 27 undefined. -/
theorem C6_simple_values (f : Nat) :
    pack (.bool true) = .ok [0xd9] ∧ pack (.bool false) = .ok [0xd8] ∧
    pack .null = .ok [0xda] ∧ pack .undef = .ok [0xdb] ∧
    _unpack (f+1) [0xd8] false = .ok (.bool false, none, []) ∧
    _unpack (f+1) [0xd9] false = .ok (.bool true, none, []) ∧
    _unpack (f+1) [0xda] false = .ok (.null, none, []) ∧
    _unpack (f+1) [0xdb] false = .ok (.undef, none, []) :=
  ⟨rfl, rfl, rfl, rfl, rfl, rfl, rfl, rfl⟩

-- ---------------- C5 ----------------- --

lemma errBind {α β : Type} (e : Err) (g : α → Except Err β) :
    (do let x ← (Except.error e : Except Err α); g x) = .error e := rfl

/-- C5: when the parser decodes a tagged item (major type 7) and the
immediately following item is itself a tag, the decode fails with the
tag-must-not-follow-a-tag error (for any two initial tag bytes with inline
tag numbers and any remaining input); but a tag on an element nested inside
an array under a tag succeeds, because the tagged flag is propagated only
one level deep and the array decode resets it (concretely, tag 0 around an
array holding tag 1 around 0 decodes to the array [0] with unknown tag 0
reported). -/
theorem C5_tag_depth (f : Nat) (rest : List Nat) (b c : Nat)
    (hb7 : b >>> 5 = 7) (hbAi : b &&& 31 ≤ 27)
    (hc7 : c >>> 5 = 7) (hcAi : c &&& 31 ≤ 27) :
    _unpack (f+2) (b :: c :: rest) false = .error .tagAfterTag ∧
    _unpack 4 [0xe0, 0x81, 0xe1, 0x00] false = .ok (.arr [.num 0], some 0, []) := by
  refine ⟨?_, rfl⟩
  rw [(by omega : f + 2 = f + 1 + 1), unpack_succ_cons]
  rw [if_neg (by omega), hb7]
  simp only [_getVal, Bool.false_eq_true, if_false]
  simp only [_unpackSemanticTag]
  rw [unpack_succ_cons]
  rw [if_neg (by omega), hc7]
  simp only [_getVal, if_true]
  rw [errBind]

/-- C5 witness: two adjacent tag initial bytes fail. -/
theorem C5_tag_depth_witness : _unpack 2 [0xe0, 0xe0] false = .error .tagAfterTag :=
  (C5_tag_depth 0 [] 0xe0 0xe0 (by decide) (by decide) (by decide) (by decide)).1

-- ---------------- C10 ----------------- --

/-- C10: when decoding a map, every decoded key is coerced to its string
representation before insertion, so the integer key 1 and the text key 1,
which are distinct decoded values with equal string forms, collide in the
resulting object and the later value wins: the map with the two pairs
(integer 1, a) then (text 1, b) decodes to a single-entry object holding b
under the property bytes of the string 1. -/
theorem C10_map_key_coercion (f a b : Nat) (ha : a ≤ 27) (hb : b ≤ 27) :
    (JsVal.num 1 ≠ JsVal.str [49]) ∧
    jsKeyString (.num 1) = jsKeyString (.str [49]) ∧
    _unpack (f+2) [0xa2, 0x01, a, 0x61, 0x31, b] false =
      .ok (.obj [([49], .num b)], none, []) := by
  refine ⟨by simp, rfl, ?_⟩
  interval_cases a <;> interval_cases b <;> rfl

/-- C10 witness: the concrete map a2 01 02 61 31 03. -/
theorem C10_map_key_coercion_witness :
    _unpack 2 [0xa2, 0x01, 0x02, 0x61, 0x31, 0x03] false =
      .ok (.obj [([49], .num 3)], none, []) :=
  (C10_map_key_coercion 0 2 3 (by norm_num) (by norm_num)).2.2

-- ---------------- C7 ----------------- --

/-- C7: constructing an Unallocated (Simple) value succeeds exactly when the
number argument is an integer in [0, 255]; in particular construction fails
at 256 and at -1. -/
theorem C7_unallocated_range (q : ℚ) :
    ((UnallocatedNew q).isOk = true ↔ ∃ n : Nat, q = n ∧ n ≤ 255) ∧
    UnallocatedNew 256 = .error .badByte ∧
    UnallocatedNew (-1) = .error .badByte := by
  refine ⟨?_, by norm_num [UnallocatedNew], by norm_num [UnallocatedNew]⟩
  unfold UnallocatedNew
  split_ifs with hcond
  · simp only [Except.isOk, Except.toBool, Bool.false_eq_true, false_iff]
    rintro ⟨n, rfl, hn⟩
    rcases hcond with h | h | h
    · exact absurd h (not_lt.mpr (Nat.cast_nonneg n))
    · have hc : ((n : ℚ) ≤ 255) := by exact_mod_cast hn
      linarith
    · apply h
      have htr : jsTrunc (n : ℚ) = n := by
        simp [jsTrunc, Int.floor_natCast]
      have hmod : (n : Int) % 4294967296 = n := Int.emod_eq_of_lt (by omega) (by omega)
      simp only [jsToInt32Q, htr, hmod]
      rw [if_neg (by omega)]
      push_cast
      rfl
  · simp only [Except.isOk, Except.toBool, true_iff]
    push_neg at hcond
    obtain ⟨h0, h255, hcast⟩ := hcond
    have htr : jsTrunc q = ⌊q⌋ := by simp [jsTrunc, h0]
    have hfl0 : (0 : Int) ≤ ⌊q⌋ := Int.le_floor.mpr (by exact_mod_cast h0)
    have hfl255 : ⌊q⌋ ≤ 255 := by
      have hf := Int.floor_le_floor h255
      simpa using hf
    have hmod : ⌊q⌋ % 4294967296 = ⌊q⌋ := Int.emod_eq_of_lt hfl0 (by omega)
    have hval : jsToInt32Q q = ⌊q⌋ := by
      simp only [jsToInt32Q, htr, hmod]
      rw [if_neg (by omega)]
    rw [hval] at hcast
    refine ⟨⌊q⌋.toNat, ?_, by omega⟩
    rw [← hcast]
    exact_mod_cast (Int.toNat_of_nonneg hfl0).symm

/-- C7 witness: the failing bound 256 through the theorem. -/
theorem C7_unallocated_range_witness : UnallocatedNew 256 = .error .badByte :=
  (C7_unallocated_range 0).2.1

-- ---------------- C8 ----------------- --

lemma addSemanticType_fst {α β : Type} [DecidableEq α] (reg : List (α × β)) (t : α) (g : β) :
    (addSemanticType reg t g).1 = List.lookup t reg := by
  induction reg with
  | nil => rfl
  | cons hd tl ih =>
    obtain ⟨t0, f0⟩ := hd
    simp only [addSemanticType, List.lookup]
    by_cases h : t0 = t
    · subst h
      simp
    · rw [if_neg h]
      have hb : (t == t0) = false := by
        simp [Ne.symm h]
      rw [hb]
      exact ih

lemma addSemanticType_append {α β : Type} [DecidableEq α] (reg : List (α × β)) (t : α) (g : β)
    (hnone : List.lookup t reg = none) : (addSemanticType reg t g).2 = reg ++ [(t, g)] := by
  induction reg with
  | nil => rfl
  | cons hd tl ih =>
    obtain ⟨t0, f0⟩ := hd
    simp only [List.lookup] at hnone
    by_cases h : t0 = t
    · subst h
      simp at hnone
    · have hb : (t == t0) = false := by
        simp [Ne.symm h]
      rw [hb] at hnone
      simp only [addSemanticType, if_neg h]
      rw [ih hnone]
      rfl

lemma addSemanticType_lookup {α β : Type} [DecidableEq α] (reg : List (α × β)) (t : α) (g : β) :
    List.lookup t (addSemanticType reg t g).2 = some g := by
  induction reg with
  | nil => simp [addSemanticType, List.lookup]
  | cons hd tl ih =>
    obtain ⟨t0, f0⟩ := hd
    by_cases h : t0 = t
    · subst h
      simp [addSemanticType, List.lookup]
    · have hb : (t == t0) = false := by
        simp [Ne.symm h]
      simp only [addSemanticType, if_neg h, List.lookup, hb]
      exact ih

lemma objSet_lookup {V : Type} (reg : List (Nat × V)) (tag : Nat) (d : V) :
    List.lookup tag (objSet reg tag d) = some d := by
  induction reg with
  | nil => simp [objSet, List.lookup]
  | cons hd tl ih =>
    obtain ⟨k0, v0⟩ := hd
    by_cases h : k0 = tag
    · subst h
      simp [objSet, List.lookup]
    · have hb : (tag == k0) = false := by
        simp [Ne.symm h]
      simp only [objSet, if_neg h, List.lookup, hb]
      exact ih

/-- C8: `addSemanticType` returns the previously registered encoder when one
is replaced and the null marker when none existed (appending the new entry
in that case), and `addSemanticTag` likewise returns the prior decoder of
the tag or the null marker; in both registries the new function is the one
found afterwards. -/
theorem C8_registry_returns_previous {α β δ : Type} [DecidableEq α]
    (reg : List (α × β)) (t : α) (g : β)
    (reg2 : List (Nat × δ)) (tag : Nat) (d : δ) :
    (addSemanticType reg t g).1 = List.lookup t reg ∧
    (List.lookup t reg = none → (addSemanticType reg t g).2 = reg ++ [(t, g)]) ∧
    List.lookup t (addSemanticType reg t g).2 = some g ∧
    (addSemanticTag reg2 tag d).1 = List.lookup tag reg2 ∧
    List.lookup tag (addSemanticTag reg2 tag d).2 = some d :=
  ⟨addSemanticType_fst reg t g, addSemanticType_append reg t g,
   addSemanticType_lookup reg t g, rfl, objSet_lookup reg2 tag d⟩

/-- C8 witness: a fresh type registration on a one-entry registry returns
the null marker and appends; a tag overwrite on the default tag registry
returns the prior decoder. -/
theorem C8_registry_returns_previous_witness :
    (addSemanticType [(1, 10)] 2 20).1 = none ∧
    (addSemanticType [(1, 10)] 2 20).2 = [(1, 10), (2, 20)] ∧
    (addSemanticTag [(11, 5)] 11 7).1 = some 5 ∧
    List.lookup 11 (addSemanticTag [(11, 5)] 11 7).2 = some 7 := by
  have h := C8_registry_returns_previous [((1 : Nat), (10 : Nat))] 2 20 [((11 : Nat), (5 : Nat))] 11 7
  exact ⟨h.1, h.2.1 rfl, h.2.2.2.1, h.2.2.2.2⟩

-- ---------------- C4 ----------------- --

set_option maxRecDepth 10000 in
lemma byteAnd128 : ∀ b0 < 256, b0 &&& 128 = b0 / 128 * 128 := by decide

set_option maxRecDepth 10000 in
lemma byteExpBits : ∀ b0 < 256, (b0 &&& 124) >>> 2 = b0 / 4 % 32 := by decide

set_option maxRecDepth 10000 in
lemma byteAnd3 : ∀ b0 < 256, b0 &&& 3 = b0 % 4 := by decide

set_option maxRecDepth 20000 in
lemma mantOr : ∀ m < 4, ∀ b1 < 256, (m <<< 8) ||| b1 = m * 256 + b1 := by decide

/-- C4: on any two-byte input the half-precision decoder computes the sign
from bit 15, the exponent from bits 14..10 and the mantissa from bits 9..0
of the big-endian word, returning sign times 2^-24 times the mantissa when
the exponent is zero, NaN or a signed infinity when the exponent is all
ones (NaN exactly when the mantissa is nonzero), and sign times 2^(exp-25)
times (1024 + mantissa) otherwise. -/
theorem C4_half_decode (b0 b1 : Nat) (hb0 : b0 < 256) (hb1 : b1 < 256) :
    _unpackHalf [b0, b1] =
      (let h : Nat := 256 * b0 + b1
       let sgn : Int := if h / 2 ^ 15 = 1 then -1 else 1
       let e : Nat := h / 2 ^ 10 % 2 ^ 5
       let m : Nat := h % 2 ^ 10
       if e = 0 then .fin sgn (jsPow2 (-24) * (m : ℚ))
       else if e = 31 then (if m ≠ 0 then .nan else .inf sgn)
       else .fin sgn (jsPow2 ((e : Int) - 25) * ((1024 + m : Nat) : ℚ))) := by
  have s2 : (b0 &&& 124) >>> 2 = b0 / 4 % 32 := byteExpBits b0 hb0
  have s3 : ((b0 &&& 3) <<< 8) ||| b1 = b0 % 4 * 256 + b1 := by
    rw [byteAnd3 b0 hb0]
    exact mantOr (b0 % 4) (by omega) b1 hb1
  have c1 : (b0 &&& 128 ≠ 0) ↔ ((256 * b0 + b1) / 2 ^ 15 = 1) := by
    rw [byteAnd128 b0 hb0]
    omega
  have a2 : (256 * b0 + b1) / 2 ^ 10 % 2 ^ 5 = b0 / 4 % 32 := by omega
  have a3 : (256 * b0 + b1) % 2 ^ 10 = b0 % 4 * 256 + b1 := by omega
  have hc : (59604644775390625 : ℚ) / 10 ^ 24 = jsPow2 (-24) := by
    norm_num [jsPow2]
    rw [show Int.toNat 24 = 24 from rfl]
    norm_num
  simp only [_unpackHalf, List.getD_cons_zero, List.getD_cons_succ,
    s2, s3, c1, a2, a3, hc]

/-- C4 witness: the concrete half-precision vectors of the specification,
including one NaN form with nonzero mantissa, derived from the general
theorem. -/
theorem C4_half_decode_witness :
    _unpackHalf [0x3c, 0x00] = .fin 1 1 ∧
    _unpackHalf [0xc0, 0x00] = .fin (-1) 2 ∧
    _unpackHalf [0x7b, 0xff] = .fin 1 65504 ∧
    _unpackHalf [0x04, 0x00] = .fin 1 (6.103515625e-5 : ℚ) ∧
    _unpackHalf [0x00, 0x00] = .fin 1 0 ∧
    _unpackHalf [0x80, 0x00] = .fin (-1) 0 ∧
    _unpackHalf [0x7c, 0x00] = .inf 1 ∧
    _unpackHalf [0xfc, 0x00] = .inf (-1) ∧
    _unpackHalf [0x7d, 0x01] = .nan := by
  refine ⟨?_, ?_, ?_, ?_, ?_, ?_, ?_, ?_, ?_⟩ <;>
    exact (C4_half_decode _ _ (by norm_num) (by norm_num)).trans (by
      norm_num [jsPow2, show Int.toNat 10 = 10 from rfl, show Int.toNat 9 = 9 from rfl,
        show Int.toNat 5 = 5 from rfl, show Int.toNat 24 = 24 from rfl])

-- ---------------- C9 ----------------- --

lemma hasAI_bind {α β : Type} {x : Except Err α} {g : α → Except Err β}
    (hx : hasAI x = false) (hg : ∀ a, hasAI (g a) = false) :
    hasAI (x >>= g) = false := by
  cases x with
  | error e =>
    rw [show ((Except.error e : Except Err α) >>= g) = Except.error e from rfl]
    cases e <;> first | rfl | exact hx
  | ok a =>
    rw [show ((Except.ok a : Except Err α) >>= g) = g a from rfl]
    exact hg a

lemma hasAI_wait (n : Nat) (bs : List Nat) : hasAI (wait n bs) = false := by
  unfold wait
  split_ifs <;> rfl

lemma hasAI_unpackInt (ai : Nat) (buf : List Nat) (h28 : 28 ≤ ai) (h31 : ai ≤ 31) :
    hasAI (_unpackInt ai buf) = false := by
  interval_cases ai <;> rfl

lemma hasAI_smallNumber (ai : Nat) (buf : List Nat) :
    hasAI (_unpackSmallNumber ai buf) = false := by
  unfold _unpackSmallNumber
  by_cases h : ai ≤ 23
  · rw [if_pos h]
    rfl
  · rw [if_neg h]
    split <;> first | rfl | (split_ifs <;> rfl)

lemma hasAI_unpackDate (obj : JsVal) : hasAI (_unpackDate obj) = false := by
  unfold _unpackDate
  split <;> rfl

lemma hasAI_unpackUri (obj : JsVal) : hasAI (_unpackUri obj) = false := by
  unfold _unpackUri
  split_ifs <;> rfl

lemma hasAI_unpackRegex (obj : JsVal) : hasAI (_unpackRegex obj) = false := by
  unfold _unpackRegex
  split_ifs <;> rfl

lemma hasAI_semanticTag (u : List Nat → Bool → DRes)
    (hu : ∀ bs t, hasAI (u bs t) = false) (tag : Nat) (bs : List Nat) :
    hasAI (_unpackSemanticTag u tag bs) = false := by
  simp only [_unpackSemanticTag]
  refine hasAI_bind (hu bs true) ?_
  rintro ⟨obj, slot, bs2⟩
  by_cases h11 : tag = 11
  · subst h11
    rw [show List.lookup 11 defaultSemanticTags = some _unpackDate from rfl]
    exact hasAI_bind (hasAI_unpackDate obj) (fun v => rfl)
  · by_cases h15 : tag = 15
    · subst h15
      rw [show List.lookup 15 defaultSemanticTags = some _unpackUri from rfl]
      exact hasAI_bind (hasAI_unpackUri obj) (fun v => rfl)
    · by_cases h23 : tag = 23
      · subst h23
        rw [show List.lookup 23 defaultSemanticTags = some _unpackRegex from rfl]
        exact hasAI_bind (hasAI_unpackRegex obj) (fun v => rfl)
      · have hnone : List.lookup tag defaultSemanticTags = none := by
          simp [defaultSemanticTags, List.lookup,
            beq_eq_false_iff_ne.mpr h11, beq_eq_false_iff_ne.mpr h15,
            beq_eq_false_iff_ne.mpr h23]
        rw [hnone]
        rfl

lemma hasAI_unpackArray (u : List Nat → Bool → DRes)
    (hu : ∀ bs t, hasAI (u bs t) = false) :
    ∀ left bs res, hasAI (_unpackArray u left bs res) = false := by
  intro left
  induction left with
  | zero => intro bs res; rfl
  | succ l ih =>
    intro bs res
    simp only [_unpackArray]
    refine hasAI_bind (hu bs false) ?_
    rintro ⟨obj, slot, bs2⟩
    exact ih bs2 (res ++ [obj])

lemma hasAI_unpackMap (u : List Nat → Bool → DRes)
    (hu : ∀ bs t, hasAI (u bs t) = false) :
    ∀ left bs res, hasAI (_unpackMap u left bs res) = false := by
  intro left
  induction left with
  | zero => intro bs res; rfl
  | succ l ih =>
    intro bs res
    simp only [_unpackMap]
    refine hasAI_bind (hu bs false) ?_
    rintro ⟨key, slot, bs2⟩
    refine hasAI_bind (hu bs2 false) ?_
    rintro ⟨val, slot2, bs3⟩
    exact ih bs3 (objSet res (jsKeyString key) val)

lemma hasAI_getVal (u : List Nat → Bool → DRes)
    (hu : ∀ bs t, hasAI (u bs t) = false) (mt num : Nat) (bs : List Nat) (t : Bool) :
    hasAI (_getVal u mt num bs t) = false := by
  unfold _getVal
  split
  · rfl
  · rfl
  · exact hasAI_bind (hasAI_wait num bs) (by rintro ⟨buf, bs2⟩; rfl)
  · exact hasAI_bind (hasAI_wait num bs) (by rintro ⟨buf, bs2⟩; rfl)
  · exact hasAI_unpackArray u hu num bs []
  · exact hasAI_unpackMap u hu num bs []
  · exact hasAI_bind (hasAI_smallNumber num []) (fun v => rfl)
  · split_ifs
    · rfl
    · exact hasAI_semanticTag u hu num bs
  · rfl

lemma hasAI_unpack : ∀ fuel bs t, hasAI (_unpack fuel bs t) = false := by
  intro fuel
  induction fuel with
  | zero => intro bs t; rfl
  | succ f ih =>
    intro bs t
    simp only [_unpack]
    refine hasAI_bind (hasAI_wait 1 bs) ?_
    rintro ⟨buf, bs1⟩
    dsimp only
    by_cases hai : 28 ≤ buf.getD 0 0 &&& 31
    · rw [if_pos hai]
      refine hasAI_bind (hasAI_wait _ _) ?_
      rintro ⟨buf2, bs2⟩
      by_cases hmt : buf.getD 0 0 >>> 5 = 6
      · rw [if_pos hmt]
        exact hasAI_bind (hasAI_smallNumber _ _) (fun v => rfl)
      · rw [if_neg hmt]
        refine hasAI_bind (hasAI_unpackInt _ _ hai ?_) ?_
        · have hle := Nat.and_le_right (n := buf.getD 0 0) (m := 31)
          omega
        · intro num
          exact hasAI_getVal _ (fun b tg => ih b tg) _ num bs2 t
    · rw [if_neg hai]
      exact hasAI_getVal _ (fun b tg => ih b tg) _ _ bs1 t

/-- C9: the framing-error branch of the source `_unpackInt` is unreachable:
the additional information of any initial byte is its low five bits, hence
at most 31, and `_unpackInt` is invoked only when it is at least 28, each
such value being handled; consequently no input, fuel or tagged flag can
make the parser return the invalid-additional-info failure. -/
theorem C9_invalid_ai_unreachable (fuel : Nat) (bs : List Nat) (tagged : Bool) (octet : Nat) :
    octet &&& 0x1f ≤ 31 ∧ hasAI (_unpack fuel bs tagged) = false :=
  ⟨by have hle := Nat.and_le_right (n := octet) (m := 31); omega,
   hasAI_unpack fuel bs tagged⟩
